import Mathlib

/-!
Shallow embedding of the tic-tac-toe game engine from
`src/tic_tac_toe_frontend/src/components/TicTacToeApp.tsx`.

The board is a list of nine cells; a cell is `Option Player`
(`none` embeds the TypeScript `null`).  Out-of-range reads on the
JavaScript array yield `undefined`, which is falsy and strictly unequal
to `null`; accordingly reads inside `computeStatus` use `List.getD _ none`
(falsy default) and the fill test in `handleSquareClick` uses `List.get?`
(so an out-of-range index is distinguishable from an empty in-range cell,
matching `board[index] !== null` being true for `undefined`).
-/

namespace TicTacToe

/-- `type Player = 'X' | 'O'` (TicTacToeApp.tsx line 3). -/
inductive Player where
  | X
  | O
deriving DecidableEq, Repr, Fintype

/-- `type Cell = Player | null` (line 4). -/
abbrev Cell := Option Player

/-- A winning line is a triple of board indices, embedding the
`[number, number, number]` tuples of `WIN_LINES`. -/
abbrev Line := Nat × Nat × Nat

/-- `type GameStatus` (lines 6–9). -/
inductive GameStatus where
  | inProgress (nextPlayer : Player)
  | won (winner : Player) (line : Line)
  | draw
deriving DecidableEq, Repr

/-- `const WIN_LINES` (lines 11–20): rows, then columns, then diagonals. -/
def WIN_LINES : List Line :=
  [(0, 1, 2), (3, 4, 5), (6, 7, 8),
   (0, 3, 6), (1, 4, 7), (2, 5, 8),
   (0, 4, 8), (2, 4, 6)]

/-- The body of the `if` in the loop of `computeStatus` (line 25):
`board[a] && board[a] === board[b] && board[a] === board[c]`, returning
the common occupant when the condition holds. -/
def lineWin (board : List Cell) (l : Line) : Option Player :=
  match board.getD l.1 none with
  | none => none
  | some p =>
      if board.getD l.2.1 none = some p ∧ board.getD l.2.2 none = some p then
        some p
      else
        none

/-- The `for (const line of WIN_LINES)` loop of `computeStatus`
(lines 23–28): returns the first line whose three cells are occupied by
one player, together with that player. -/
def findWin (lines : List Line) (board : List Cell) : Option (Player × Line) :=
  match lines with
  | [] => none
  | l :: rest =>
      match lineWin board l with
      | some p => some (p, l)
      | none => findWin rest board

/-- `function computeStatus(board, nextPlayer)` (lines 22–35). -/
def computeStatus (board : List Cell) (nextPlayer : Player) : GameStatus :=
  match findWin WIN_LINES board with
  | some (p, l) => .won p l
  | none =>
      if board.all (fun c => c.isSome) then
        .draw
      else
        .inProgress nextPlayer

/-- `function otherPlayer(p)` (lines 37–39). -/
def otherPlayer (p : Player) : Player :=
  match p with
  | .X => .O
  | .O => .X

/-- The score record `{ X: number; O: number }` (line 80).  JavaScript
numbers loaded from storage may be arbitrary (including negative), so the
fields are integers. -/
structure Score where
  X : Int
  O : Int
deriving DecidableEq, Repr

/-- The component state: `board`, `nextPlayer`, `score` (lines 78–80). -/
structure GameState where
  board : List Cell
  nextPlayer : Player
  score : Score
deriving DecidableEq, Repr

/-- The initial component state: nine `null` cells, `'X'` to move,
score `{X: 0, O: 0}` (lines 78–80). -/
def initialState : GameState :=
  { board := List.replicate 9 none
    nextPlayer := .X
    score := { X := 0, O := 0 } }

/-- The score update `setScore((prev) => ({...prev, [winner]: prev[winner]+1}))`
(line 131). -/
def addWin (s : Score) (w : Player) : Score :=
  match w with
  | .X => { s with X := s.X + 1 }
  | .O => { s with O := s.O + 1 }

/-- `function handleSquareClick(index)` (lines 117–140): the guards
return unchanged state; otherwise the cell is filled with the current
`status.nextPlayer`, the status is recomputed, the winner's score is
bumped on a win, and `nextPlayer` becomes the other player (both
branches of the final `if` set it to `upcomingNext`). -/
def handleSquareClick (g : GameState) (index : Nat) : GameState :=
  match g.board[index]? with
  | some none =>
      match computeStatus g.board g.nextPlayer with
      | .inProgress cur =>
          let newBoard := g.board.set index (some cur)
          let upcomingNext := otherPlayer cur
          let newStatus := computeStatus newBoard upcomingNext
          let newScore :=
            match newStatus with
            | .won w _ => addWin g.score w
            | _ => g.score
          { board := newBoard, nextPlayer := upcomingNext, score := newScore }
      | _ => g
  | _ => g

/-- The spec's name (`applyMove(index)`) for `handleSquareClick`. -/
def applyMove (g : GameState) (index : Nat) : GameState :=
  handleSquareClick g index

/-- `function resetRound(startingPlayer = nextPlayer)` (lines 107–110):
`none` embeds a call without an argument, which defaults to the current
`nextPlayer`. -/
def resetRound (g : GameState) (startingPlayer : Option Player) : GameState :=
  { g with
    board := List.replicate 9 none
    nextPlayer := startingPlayer.getD g.nextPlayer }

/-- `function resetAll()` (lines 112–115): zero the score, then
`resetRound('X')`. -/
def resetAll (g : GameState) : GameState :=
  resetRound { g with score := { X := 0, O := 0 } } (some .X)

/-- A field of the parsed stored record: absent, a JavaScript number, or
present but non-numeric (the `typeof parsed.X === 'number'` test on
lines 90–91). -/
inductive JField where
  | missing
  | numeric (n : Int)
  | nonNumeric
deriving DecidableEq, Repr

/-- The content of the `ttt_score` storage slot as seen by the load
effect (lines 85–97): key absent (falsy `raw`), text that makes
`JSON.parse` throw (such as `"not json"`), or a parsed value whose `X`
and `O` fields are as described by `JField`. -/
inductive Stored where
  | absent
  | unparseable
  | parsed (x : JField) (o : JField)
deriving DecidableEq, Repr

/-- `typeof parsed.F === 'number' ? parsed.F : 0` (lines 90–91). -/
def fieldValue (f : JField) : Int :=
  match f with
  | .numeric n => n
  | _ => 0

/-- The load effect (lines 85–97): `setScore` runs only when the raw
value is present and parses; otherwise (absent key, or the `catch` on a
parse error) the state is untouched. -/
def loadEffect (g : GameState) (s : Stored) : GameState :=
  match s with
  | .parsed x o => { g with score := { X := fieldValue x, O := fieldValue o } }
  | _ => g

/-- The spec's `loadScore() → Score`: the score observed after the load
effect runs on the freshly-initialised component. -/
def loadScore (s : Stored) : Score :=
  (loadEffect initialState s).score

/-- An engine operation, for claims that range over operation
sequences. -/
inductive Op where
  | move (index : Nat)
  | newRound (startingPlayer : Option Player)
  | resetScore
  | load (s : Stored)
deriving DecidableEq, Repr

/-- One engine operation applied to a state. -/
def step (g : GameState) (op : Op) : GameState :=
  match op with
  | .move i => applyMove g i
  | .newRound p => resetRound g p
  | .resetScore => resetAll g
  | .load s => loadEffect g s

/-- The state after a sequence of engine operations from the initial
state. -/
def run (ops : List Op) : GameState :=
  ops.foldl step initialState

/-- The state reached from the empty board by a sequence of
`applyMove` calls (no resets). -/
def playAll (moves : List Nat) : GameState :=
  moves.foldl applyMove initialState

/-- Spec-side reading of "winning line fully occupied by one player":
all three cells of `l` hold `p`'s mark. -/
def lineFilledBy (board : List Cell) (l : Line) (p : Player) : Prop :=
  board.getD l.1 none = some p ∧
  board.getD l.2.1 none = some p ∧
  board.getD l.2.2 none = some p

instance (board : List Cell) (l : Line) (p : Player) :
    Decidable (lineFilledBy board l p) := by
  unfold lineFilledBy
  infer_instance

/-- All fully occupied winning lines on the board belong to one player. -/
def sameOwner (b : List Cell) : Prop :=
  ∀ l1 l2 p1 p2, l1 ∈ WIN_LINES → l2 ∈ WIN_LINES →
    lineFilledBy b l1 p1 → lineFilledBy b l2 p2 → p1 = p2

/-! ### Helper lemmas -/

theorem lineWin_eq_some_iff (b : List Cell) (l : Line) (p : Player) :
    lineWin b l = some p ↔ lineFilledBy b l p := by
  unfold lineWin lineFilledBy
  cases hb : b.getD l.1 none with
  | none => simp
  | some q =>
      dsimp only
      split_ifs with hc
      · constructor
        · intro h
          injection h with h
          subst h
          exact ⟨rfl, hc.1, hc.2⟩
        · intro h
          exact h.1
      · constructor
        · intro h
          exact absurd h (by simp)
        · intro h
          obtain ⟨h1, h2, h3⟩ := h
          injection h1 with h1
          subst h1
          exact absurd ⟨h2, h3⟩ hc

theorem lineWin_eq_none_iff (b : List Cell) (l : Line) :
    lineWin b l = none ↔ ∀ p, ¬ lineFilledBy b l p := by
  constructor
  · intro h p hf
    rw [← lineWin_eq_some_iff] at hf
    rw [h] at hf
    exact Option.noConfusion hf
  · intro h
    cases hw : lineWin b l with
    | none => rfl
    | some p => exact absurd ((lineWin_eq_some_iff b l p).mp hw) (h p)

theorem findWin_eq_none_iff (ls : List Line) (b : List Cell) :
    findWin ls b = none ↔ ∀ l ∈ ls, lineWin b l = none := by
  induction ls with
  | nil => simp [findWin]
  | cons hd tl ih =>
      unfold findWin
      cases hw : lineWin b hd with
      | some p =>
          simp only [List.mem_cons]
          constructor
          · intro h
            exact absurd h (by simp)
          · intro h
            exact absurd (h hd (Or.inl rfl)) (by simp [hw])
      | none =>
          rw [ih]
          constructor
          · intro h l hl
            rcases List.mem_cons.mp hl with rfl | hl
            · exact hw
            · exact h l hl
          · intro h l hl
            exact h l (List.mem_cons_of_mem hd hl)

theorem findWin_eq_some_iff (ls : List Line) (b : List Cell) (p : Player)
    (l : Line) :
    findWin ls b = some (p, l) ↔
      ∃ i, ls.get? i = some l ∧ lineWin b l = some p ∧
        ∀ j l', j < i → ls.get? j = some l' → lineWin b l' = none := by
  induction ls with
  | nil => simp [findWin]
  | cons hd tl ih =>
      unfold findWin
      cases hw : lineWin b hd with
      | some q =>
          constructor
          · intro h
            injection h with h
            obtain ⟨hq, hl⟩ := Prod.mk.injEq q hd p l ▸ h
            refine ⟨0, ?_, ?_, ?_⟩
            · rw [← hl]; rfl
            · rw [← hl, ← hq]; exact hw
            · intro j l' hj
              exact absurd hj (Nat.not_lt_zero j)
          · rintro ⟨i, hi, hwl, hfirst⟩
            cases i with
            | zero =>
                rw [List.get?_cons_zero] at hi
                injection hi with hi
                subst hi
                rw [hw] at hwl
                injection hwl with hwl
                rw [hwl]
            | succ k =>
                have := hfirst 0 hd (Nat.succ_pos k) List.get?_cons_zero
                rw [hw] at this
                exact Option.noConfusion this
      | none =>
          rw [ih]
          constructor
          · rintro ⟨i, hi, hwl, hfirst⟩
            refine ⟨i + 1, by simpa using hi, hwl, ?_⟩
            intro j l' hj hg
            cases j with
            | zero =>
                rw [List.get?_cons_zero] at hg
                injection hg with hg
                subst hg
                exact hw
            | succ m =>
                rw [List.get?_cons_succ] at hg
                exact hfirst m l' (by omega) hg
          · rintro ⟨i, hi, hwl, hfirst⟩
            cases i with
            | zero =>
                rw [List.get?_cons_zero] at hi
                injection hi with hi
                subst hi
                rw [hw] at hwl
                exact Option.noConfusion hwl
            | succ k =>
                rw [List.get?_cons_succ] at hi
                refine ⟨k, hi, hwl, ?_⟩
                intro j l' hj hg
                exact hfirst (j + 1) l' (by omega) (by simpa using hg)

theorem computeStatus_won_iff (b : List Cell) (np w : Player) (l : Line) :
    computeStatus b np = .won w l ↔ findWin WIN_LINES b = some (w, l) := by
  unfold computeStatus
  cases hf : findWin WIN_LINES b with
  | some pl =>
      obtain ⟨p, l2⟩ := pl
      simp [GameStatus.won.injEq]
  | none => split_ifs <;> simp

theorem computeStatus_draw_iff (b : List Cell) (np : Player) :
    computeStatus b np = .draw ↔
      findWin WIN_LINES b = none ∧ b.all (fun c => c.isSome) = true := by
  unfold computeStatus
  cases hf : findWin WIN_LINES b with
  | some pl =>
      obtain ⟨p, l2⟩ := pl
      simp
  | none => split_ifs with h <;> simp [h]

theorem computeStatus_inProgress_iff (b : List Cell) (np p : Player) :
    computeStatus b np = .inProgress p ↔
      findWin WIN_LINES b = none ∧ b.all (fun c => c.isSome) = false ∧
        p = np := by
  unfold computeStatus
  cases hf : findWin WIN_LINES b with
  | some pl =>
      obtain ⟨q, l2⟩ := pl
      simp
  | none =>
      split_ifs with h
      · simp [h]
      · simp only [Bool.not_eq_true] at h
        simp [h, GameStatus.inProgress.injEq, eq_comm]

theorem getD_set_ne (b : List Cell) (i j : Nat) (x : Cell) (h : i ≠ j) :
    (b.set i x).getD j none = b.getD j none := by
  rw [List.getD_eq_getD_get?, List.getD_eq_getD_get?, List.get?_set_ne x b h]

theorem getD_set_self (b : List Cell) (i : Nat) (x : Cell)
    (h : i < b.length) :
    (b.set i x).getD i none = x := by
  rw [List.getD_eq_getD_get?, List.get?_set_eq_of_lt x h]
  rfl

/-- A board whose top row is filled by X (cell 5 onward still empty). -/
def boardXRow : List Cell :=
  [some .X, some .X, some .X, some .O, some .O, none, none, none, none]

/-- A full board with no winning line. -/
def boardFullNoWin : List Cell :=
  [some .X, some .O, some .X,
   some .X, some .O, some .O,
   some .O, some .X, some .X]

/-! ### Claims -/

/-- C1: for every 9-cell board and every `nextPlayer`, `computeStatus`
returns `Won{winner, line}` iff some winning line has all three cells
non-empty and equal; when several lines qualify, the returned line is
the first in the fixed `WIN_LINES` order (rows top-to-bottom, columns
left-to-right, diagonal `[0,4,8]`, diagonal `[2,4,6]`), and the winner
is the mark occupying that line. -/
theorem spec_C1 (b : List Cell) (np : Player) (h9 : b.length = 9) :
    ((∃ w l, computeStatus b np = .won w l) ↔
      ∃ l ∈ WIN_LINES, ∃ p, lineFilledBy b l p) ∧
    (∀ (w : Player) (l : Line),
      computeStatus b np = .won w l ↔
        ∃ i, WIN_LINES.get? i = some l ∧ lineFilledBy b l w ∧
          ∀ j l', j < i → WIN_LINES.get? j = some l' →
            ∀ p, ¬ lineFilledBy b l' p) := by
  have hchar : ∀ (w : Player) (l : Line),
      computeStatus b np = .won w l ↔
        ∃ i, WIN_LINES.get? i = some l ∧ lineFilledBy b l w ∧
          ∀ j l', j < i → WIN_LINES.get? j = some l' →
            ∀ p, ¬ lineFilledBy b l' p := by
    intro w l
    rw [computeStatus_won_iff, findWin_eq_some_iff]
    constructor
    · rintro ⟨i, hi, hwl, hfirst⟩
      refine ⟨i, hi, (lineWin_eq_some_iff b l w).mp hwl, ?_⟩
      intro j l' hj hg
      exact (lineWin_eq_none_iff b l').mp (hfirst j l' hj hg)
    · rintro ⟨i, hi, hf, hfirst⟩
      refine ⟨i, hi, (lineWin_eq_some_iff b l w).mpr hf, ?_⟩
      intro j l' hj hg
      exact (lineWin_eq_none_iff b l').mpr (hfirst j l' hj hg)
  refine ⟨?_, hchar⟩
  constructor
  · rintro ⟨w, l, hw⟩
    obtain ⟨i, hi, hf, -⟩ := (hchar w l).mp hw
    exact ⟨l, List.get?_mem hi, w, hf⟩
  · rintro ⟨l, hl, p, hf⟩
    cases hfw : findWin WIN_LINES b with
    | some pl =>
        obtain ⟨w, l2⟩ := pl
        exact ⟨w, l2, (computeStatus_won_iff b np w l2).mpr hfw⟩
    | none =>
        have := (findWin_eq_none_iff WIN_LINES b).mp hfw l hl
        rw [lineWin_eq_none_iff] at this
        exact absurd hf (this p)

/-- C1 witness: on the concrete board with the top row filled by X,
`computeStatus` returns `Won X [0,1,2]` via the first-line
characterisation. -/
theorem spec_C1_witness :
    computeStatus boardXRow .X = .won .X (0, 1, 2) :=
  ((spec_C1 boardXRow .X (by decide)).2 .X (0, 1, 2)).mpr
    ⟨0, rfl, by decide, fun j l' hj _ _ _ => absurd hj (Nat.not_lt_zero j)⟩

/-- C2: for every 9-cell board with no winning line fully occupied by
one player, `computeStatus` returns `Draw` when every cell is non-empty
and `InProgress` echoing exactly the input `nextPlayer` when at least
one cell is empty. -/
theorem spec_C2 (b : List Cell) (np : Player) (h9 : b.length = 9)
    (hnowin : ∀ l ∈ WIN_LINES, ∀ p, ¬ lineFilledBy b l p) :
    ((∀ c ∈ b, c ≠ none) → computeStatus b np = .draw) ∧
    ((∃ c ∈ b, c = none) → computeStatus b np = .inProgress np) := by
  have hfw : findWin WIN_LINES b = none := by
    rw [findWin_eq_none_iff]
    intro l hl
    rw [lineWin_eq_none_iff]
    exact hnowin l hl
  constructor
  · intro hfull
    rw [computeStatus_draw_iff]
    refine ⟨hfw, ?_⟩
    rw [List.all_eq_true]
    intro c hc
    have := hfull c hc
    cases c with
    | none => exact absurd rfl this
    | some p => rfl
  · rintro ⟨c, hc, rfl⟩
    rw [computeStatus_inProgress_iff]
    refine ⟨hfw, ?_, rfl⟩
    rw [Bool.eq_false_iff]
    intro hall
    rw [List.all_eq_true] at hall
    exact Bool.noConfusion (hall _ hc)

/-- C2 witness: a concrete full no-win board yields `Draw`, and the
empty board yields `InProgress` echoing the input player. -/
theorem spec_C2_witness :
    computeStatus boardFullNoWin .X = .draw ∧
    computeStatus (List.replicate 9 (none : Cell)) .O = .inProgress .O :=
  ⟨(spec_C2 boardFullNoWin .X (by decide) (by decide)).1 (by decide),
   (spec_C2 (List.replicate 9 (none : Cell)) .O (by decide) (by decide)).2
     ⟨none, by decide, rfl⟩⟩

/-- C10: the `Won`/`Draw` outcome of `computeStatus` does not depend on
the `nextPlayer` argument; only the `InProgress` variant carries it. -/
theorem spec_C10 (b : List Cell) (p q : Player) :
    (∀ w l, computeStatus b p = .won w l → computeStatus b q = .won w l) ∧
    (computeStatus b p = .draw → computeStatus b q = .draw) := by
  constructor
  · intro w l h
    rw [computeStatus_won_iff] at h ⊢
    exact h
  · intro h
    rw [computeStatus_draw_iff] at h ⊢
    exact h

/-- C10 witness: the win on the concrete X-row board computed with
`nextPlayer = X` transfers verbatim to `nextPlayer = O`. -/
theorem spec_C10_witness :
    computeStatus boardXRow .O = .won .X (0, 1, 2) :=
  (spec_C10 boardXRow .X .O).1 .X (0, 1, 2) (by decide)

/-- C3: `applyMove index` is a no-op leaving the whole state (board,
nextPlayer, score) unchanged whenever the index is outside 0..8, the
cell at the index is already filled, or the current status is `Won` or
`Draw`; no error is raised (the function is total). -/
theorem spec_C3 (g : GameState) (h9 : g.board.length = 9) (index : Nat)
    (hviol : 9 ≤ index ∨
      (∃ p, g.board[index]? = some (some p)) ∨
      (∃ w l, computeStatus g.board g.nextPlayer = .won w l) ∨
      computeStatus g.board g.nextPlayer = .draw) :
    applyMove g index = g := by
  rcases hviol with hix | ⟨p, hp⟩ | ⟨w, l, hw⟩ | hd
  · have hn : g.board[index]? = none := List.getElem?_eq_none (by omega)
    simp [applyMove, handleSquareClick, hn]
  · simp [applyMove, handleSquareClick, hp]
  · cases hq : g.board[index]? with
    | none => simp [applyMove, handleSquareClick, hq]
    | some c =>
        cases c with
        | none => simp [applyMove, handleSquareClick, hq, hw]
        | some p => simp [applyMove, handleSquareClick, hq]
  · cases hq : g.board[index]? with
    | none => simp [applyMove, handleSquareClick, hq]
    | some c =>
        cases c with
        | none => simp [applyMove, handleSquareClick, hq, hd]
        | some p => simp [applyMove, handleSquareClick, hq]

/-- C3 witness: clicking the empty cell 5 of an already-won board
changes nothing. -/
theorem spec_C3_witness :
    applyMove ⟨boardXRow, .O, ⟨1, 0⟩⟩ 5 = ⟨boardXRow, .O, ⟨1, 0⟩⟩ :=
  spec_C3 ⟨boardXRow, .O, ⟨1, 0⟩⟩ (by decide) 5
    (Or.inr (Or.inr (Or.inl ⟨.X, (0, 1, 2), by decide⟩)))

/-- C4: for every valid move (empty cell, status `InProgress`),
`applyMove` sets `board[index]` to the current `nextPlayer`'s mark and
sets `nextPlayer` to the other player, regardless of the resulting
status. -/
theorem spec_C4 (g : GameState) (index : Nat)
    (hcell : g.board[index]? = some none)
    (hst : computeStatus g.board g.nextPlayer = .inProgress g.nextPlayer) :
    (applyMove g index).board = g.board.set index (some g.nextPlayer) ∧
    (applyMove g index).nextPlayer = otherPlayer g.nextPlayer := by
  simp [applyMove, handleSquareClick, hcell, hst]

/-- C4 witness: the opening move on the initial state. -/
theorem spec_C4_witness :
    (applyMove initialState 0).board =
      initialState.board.set 0 (some initialState.nextPlayer) ∧
    (applyMove initialState 0).nextPlayer =
      otherPlayer initialState.nextPlayer :=
  spec_C4 initialState 0 (by decide) (by decide)

/-- C5: for every valid move whose recomputed status is `Won`,
`applyMove` increments the winner's score by exactly 1 and leaves the
other player's score unchanged; when the recomputed status is
`InProgress` or `Draw`, both score fields are unchanged.  Moreover the
concrete sequence X:0, O:3, X:1, O:4, X:2 from the empty board yields
`Won{winner: X, line: [0,1,2]}` with `score.X` going from 0 to 1 and
`score.O` unchanged at 0. -/
theorem spec_C5 (g : GameState) (index : Nat)
    (hcell : g.board[index]? = some none)
    (hst : computeStatus g.board g.nextPlayer = .inProgress g.nextPlayer) :
    ((∀ l, computeStatus (g.board.set index (some g.nextPlayer))
        (otherPlayer g.nextPlayer) = .won .X l →
        (applyMove g index).score.X = g.score.X + 1 ∧
        (applyMove g index).score.O = g.score.O) ∧
     (∀ l, computeStatus (g.board.set index (some g.nextPlayer))
        (otherPlayer g.nextPlayer) = .won .O l →
        (applyMove g index).score.O = g.score.O + 1 ∧
        (applyMove g index).score.X = g.score.X) ∧
     (computeStatus (g.board.set index (some g.nextPlayer))
        (otherPlayer g.nextPlayer) = .draw →
        (applyMove g index).score = g.score) ∧
     (∀ p, computeStatus (g.board.set index (some g.nextPlayer))
        (otherPlayer g.nextPlayer) = .inProgress p →
        (applyMove g index).score = g.score)) ∧
    (computeStatus (playAll [0, 3, 1, 4, 2]).board
        (playAll [0, 3, 1, 4, 2]).nextPlayer = .won .X (0, 1, 2) ∧
     initialState.score.X = 0 ∧ initialState.score.O = 0 ∧
     (playAll [0, 3, 1, 4, 2]).score.X = 1 ∧
     (playAll [0, 3, 1, 4, 2]).score.O = 0) := by
  refine ⟨⟨?_, ?_, ?_, ?_⟩, by decide⟩
  · intro l h
    simp [applyMove, handleSquareClick, hcell, hst, h, addWin]
  · intro l h
    simp [applyMove, handleSquareClick, hcell, hst, h, addWin]
  · intro h
    simp [applyMove, handleSquareClick, hcell, hst, h]
  · intro p h
    simp [applyMove, handleSquareClick, hcell, hst, h]

/-- C5 witness: X's winning fifth move of the scenario increments
`score.X` and leaves `score.O` unchanged. -/
theorem spec_C5_witness :
    (applyMove (playAll [0, 3, 1, 4]) 2).score.X =
      (playAll [0, 3, 1, 4]).score.X + 1 ∧
    (applyMove (playAll [0, 3, 1, 4]) 2).score.O =
      (playAll [0, 3, 1, 4]).score.O :=
  (spec_C5 (playAll [0, 3, 1, 4]) 2 (by decide) (by decide)).1.1
    (0, 1, 2) (by decide)

/-- C6: `loadScore` returns `{X:0, O:0}` when no score record exists or
the stored text does not parse (such as the text `"not json"`); when the
stored text parses, each field is taken from the parsed record if it is
numeric and defaults to 0 individually otherwise, never failing and
never discarding the other field's valid value. -/
theorem spec_C6 :
    loadScore .absent = { X := 0, O := 0 } ∧
    loadScore .unparseable = { X := 0, O := 0 } ∧
    (∀ n o, (loadScore (.parsed (.numeric n) o)).X = n) ∧
    (∀ x n, (loadScore (.parsed x (.numeric n))).O = n) ∧
    (∀ o, (loadScore (.parsed .missing o)).X = 0) ∧
    (∀ o, (loadScore (.parsed .nonNumeric o)).X = 0) ∧
    (∀ x, (loadScore (.parsed x .missing)).O = 0) ∧
    (∀ x, (loadScore (.parsed x .nonNumeric)).O = 0) :=
  ⟨rfl, rfl, fun n o => rfl, fun x n => rfl,
   fun o => rfl, fun o => rfl, fun x => rfl, fun x => rfl⟩

/-- C9: for every starting state and every `startingPlayer` argument
(`none` embedding a call without an argument), `resetRound` clears all
nine cells, sets `nextPlayer` to the given starting player (defaulting
to the current `nextPlayer`), and leaves both score fields unchanged. -/
theorem spec_C9 (g : GameState) (sp : Option Player) :
    (resetRound g sp).board = List.replicate 9 none ∧
    (resetRound g sp).nextPlayer = sp.getD g.nextPlayer ∧
    (resetRound g sp).score = g.score :=
  ⟨rfl, rfl, rfl⟩

/-- C8 counterexample: loading a stored record whose `X` field is the
number `-1` (a step of a run, and not a `resetAll`) takes `score.X`
from 0 down to -1, so scores can decrease on operations other than
`resetAll`. -/
theorem spec_C8_counterexample :
    ¬ (∀ (ops : List Op) (op : Op), op ≠ Op.resetScore →
        (run ops).score.X ≤ (step (run ops) op).score.X ∧
        (run ops).score.O ≤ (step (run ops) op).score.O) := by
  intro h
  have hc := h [] (Op.load (.parsed (.numeric (-1)) .missing)) (by decide)
  exact absurd hc.1 (by decide)

/-- C8 (amended): across every sequence of engine operations,
`applyMove` and `resetRound` never decrease either player's score, and
`resetAll` sets both scores to zero; a score load instead overwrites
the score with the stored record's numeric field values (defaulting to
0 per field), which can be lower than the current value. -/
theorem spec_C8 :
    (∀ g i, g.score.X ≤ (applyMove g i).score.X ∧
            g.score.O ≤ (applyMove g i).score.O) ∧
    (∀ g sp, (resetRound g sp).score = g.score) ∧
    (∀ g, (resetAll g).score = { X := 0, O := 0 }) ∧
    (∀ g x o, (loadEffect g (.parsed x o)).score =
      { X := fieldValue x, O := fieldValue o }) ∧
    (∀ g, loadEffect g .absent = g ∧ loadEffect g .unparseable = g) := by
  refine ⟨?_, fun g sp => rfl, fun g => rfl, fun g x o => rfl,
    fun g => ⟨rfl, rfl⟩⟩
  intro g i
  unfold applyMove handleSquareClick
  cases hq : g.board[i]? with
  | none => exact ⟨le_refl _, le_refl _⟩
  | some c =>
      cases c with
      | some p => exact ⟨le_refl _, le_refl _⟩
      | none =>
          cases hs : computeStatus g.board g.nextPlayer with
          | won w l => exact ⟨le_refl _, le_refl _⟩
          | draw => exact ⟨le_refl _, le_refl _⟩
          | inProgress cur =>
              cases hns : computeStatus (g.board.set i (some cur))
                  (otherPlayer cur) with
              | won w l =>
                  cases w <;> simp [hns, addWin] <;> omega
              | draw => simp [hns]
              | inProgress p2 => simp [hns]

theorem getD_replicate_none (n j : Nat) :
    (List.replicate n (none : Cell)).getD j none = none := by
  by_cases h : j < n
  · rw [List.getD_eq_getElem _ _ (by simpa using h)]
    simp
  · exact List.getD_eq_default _ _ (by simpa using Nat.le_of_not_lt h)

/-- Either `applyMove` is a no-op, or the clicked cell was empty, the
pre-move board had no completed line, and the move only fills that cell
with the current `nextPlayer`'s mark. -/
theorem applyMove_cases (g : GameState) (i : Nat) :
    applyMove g i = g ∨
    (g.board[i]? = some none ∧
     findWin WIN_LINES g.board = none ∧
     (applyMove g i).board = g.board.set i (some g.nextPlayer)) := by
  unfold applyMove handleSquareClick
  cases hq : g.board[i]? with
  | none => exact Or.inl rfl
  | some c =>
      cases c with
      | some p => exact Or.inl rfl
      | none =>
          cases hs : computeStatus g.board g.nextPlayer with
          | won w l => exact Or.inl rfl
          | draw => exact Or.inl rfl
          | inProgress cur =>
              have hcur : cur = g.nextPlayer :=
                ((computeStatus_inProgress_iff g.board g.nextPlayer cur).mp
                  hs).2.2
              refine Or.inr ⟨rfl, ?_, ?_⟩
              · cases hfw : findWin WIN_LINES g.board with
                | none => rfl
                | some pl =>
                    obtain ⟨p2, l2⟩ := pl
                    have := (computeStatus_won_iff g.board g.nextPlayer
                      p2 l2).mpr hfw
                    rw [hs] at this
                    exact GameStatus.noConfusion this
              · rw [hcur]

/-- A move preserves the single-owner property of completed lines: any
line completed by the move contains the cell just filled, hence belongs
to the mover; and a board that already has a completed line rejects the
move. -/
theorem applyMove_sameOwner (g : GameState) (i : Nat)
    (h : sameOwner g.board) : sameOwner (applyMove g i).board := by
  rcases applyMove_cases g i with heq | ⟨hcell, hfw, hboard⟩
  · rw [heq]
    exact h
  · rw [hboard]
    have hlen : i < g.board.length := (List.getElem?_eq_some.mp hcell).1
    have hnone : ∀ l ∈ WIN_LINES, lineWin g.board l = none :=
      (findWin_eq_none_iff WIN_LINES g.board).mp hfw
    have key : ∀ l p, l ∈ WIN_LINES →
        lineFilledBy (g.board.set i (some g.nextPlayer)) l p →
        p = g.nextPlayer := by
      intro l p hl hf
      by_cases hmem : i = l.1 ∨ i = l.2.1 ∨ i = l.2.2
      · have hset : (g.board.set i (some g.nextPlayer)).getD i none =
            some g.nextPlayer := getD_set_self g.board i _ hlen
        obtain ⟨h1, h2, h3⟩ := hf
        rcases hmem with hm | hm | hm
        · rw [← hm] at h1
          rw [hset] at h1
          injection h1 with h1
          exact h1.symm
        · rw [← hm] at h2
          rw [hset] at h2
          injection h2 with h2
          exact h2.symm
        · rw [← hm] at h3
          rw [hset] at h3
          injection h3 with h3
          exact h3.symm
      · push_neg at hmem
        obtain ⟨hm1, hm2, hm3⟩ := hmem
        obtain ⟨h1, h2, h3⟩ := hf
        have hfb : lineFilledBy g.board l p := by
          refine ⟨?_, ?_, ?_⟩
          · rw [← getD_set_ne g.board i l.1 (some g.nextPlayer) hm1]
            exact h1
          · rw [← getD_set_ne g.board i l.2.1 (some g.nextPlayer) hm2]
            exact h2
          · rw [← getD_set_ne g.board i l.2.2 (some g.nextPlayer) hm3]
            exact h3
        have hw := (lineWin_eq_some_iff g.board l p).mpr hfb
        rw [hnone l hl] at hw
        exact Option.noConfusion hw
    intro l1 l2 p1 p2 hl1 hl2 hf1 hf2
    rw [key l1 p1 hl1 hf1, key l2 p2 hl2 hf2]

/-- Every state reachable from the empty board by `applyMove` calls has
all its completed lines owned by a single player. -/
theorem playAll_sameOwner (moves : List Nat) :
    sameOwner (playAll moves).board := by
  unfold playAll
  have hrun : ∀ (ms : List Nat) (g : GameState), sameOwner g.board →
      sameOwner (ms.foldl applyMove g).board := by
    intro ms
    induction ms with
    | nil => intro g hg; exact hg
    | cons m rest ih =>
        intro g hg
        exact ih _ (applyMove_sameOwner g m hg)
  apply hrun
  intro l1 l2 p1 p2 hl1 hl2 hf1 hf2
  obtain ⟨h1, -, -⟩ := hf1
  rw [show initialState.board = List.replicate 9 none from rfl,
    getD_replicate_none] at h1
  exact Option.noConfusion h1

/-- C7 counterexample: the claim that at most one winning line is ever
fully occupied in a reachable state is false — after the legal sequence
X:1, O:4, X:2, O:5, X:3, O:7, X:6, O:8, X:0 from the empty board, the
distinct lines [0,1,2] and [0,3,6] are both fully occupied by X. -/
theorem spec_C7_counterexample :
    ¬ (∀ (moves : List Nat) (l1 l2 : Line) (p1 p2 : Player),
        l1 ∈ WIN_LINES → l2 ∈ WIN_LINES →
        lineFilledBy (playAll moves).board l1 p1 →
        lineFilledBy (playAll moves).board l2 p2 → l1 = l2) := by
  intro h
  have hc := h [1, 4, 2, 5, 3, 7, 6, 8, 0] (0, 1, 2) (0, 3, 6) .X .X
    (by decide) (by decide) (by decide) (by decide)
  exact absurd hc (by decide)

/-- C7 (amended): for every state reachable from the empty board by any
sequence of `applyMove` calls (without resets), all fully occupied
winning lines are occupied by the same player's mark — several lines may
be complete simultaneously, but only for one player. -/
theorem spec_C7 (moves : List Nat) (l1 l2 : Line) (p1 p2 : Player)
    (h1 : l1 ∈ WIN_LINES) (h2 : l2 ∈ WIN_LINES)
    (hf1 : lineFilledBy (playAll moves).board l1 p1)
    (hf2 : lineFilledBy (playAll moves).board l2 p2) :
    p1 = p2 :=
  playAll_sameOwner moves l1 l2 p1 p2 h1 h2 hf1 hf2

/-- C7 witness: the two lines completed by the double-win sequence
indeed have equal owners. -/
theorem spec_C7_witness : Player.X = Player.X :=
  spec_C7 [1, 4, 2, 5, 3, 7, 6, 8, 0] (0, 1, 2) (0, 3, 6) .X .X
    (by decide) (by decide) (by decide) (by decide)

end TicTacToe
